import Mathlib

set_option maxRecDepth 10000

/-!
Verification of the collaborative-editor relay server
(docs/example-collaborative/server.py).

The model below is a shallow embedding of the Python source:

* `CommandRecord` embeds the dictionaries `{"id": ..., "data": ...}` that
  `CommandDataStore.add_command` appends to `command_data`.
* `CommandDataStore` embeds the class of the same name: the list
  `command_data` and the integer `id_counter`.
* `CommandDataStore.add_command` embeds lines 39-51 of the source, and
  `CommandDataStore.get_commands_since` embeds lines 53-60.
* `incStep` and `lockedStep` split `add_command` at the
  `command_data_mutex.acquire()` call (line 41): `incStep` is the counter
  increment on line 40, executed before the mutex is acquired, and
  `lockedStep` is the mutex-protected region of lines 42-51.  A concurrent
  execution of two `add_command` calls is an interleaving of these
  micro-steps.
* `RequestHandler.poll` embeds lines 93-94 of `handle_command_request`
  (the `since_marker + 1` translation), and
  `RequestHandler.handle_command_post` embeds lines 101-125, with
  `json.loads` abstracted as a caller-supplied partial function
  `json_loads : String → Option α` (a `JSONDecodeError` is `none`).

Payloads are opaque to the log, so the whole development is parametric in
the payload type `α`.
-/

/-- An entry of the command log: the dictionary
`{"id": self.id_counter, "data": json_data}` built on lines 42-45. -/
structure CommandRecord (α : Type) where
  id : Nat
  data : α
deriving Repr, DecidableEq

/-- The `CommandDataStore` class (lines 33-60): the list `command_data`
and the counter `id_counter`.  The mutex has no data content; its effect
is modelled by the `incStep`/`lockedStep` decomposition below. -/
structure CommandDataStore (α : Type) where
  command_data : List (CommandRecord α)
  id_counter : Nat
deriving Repr, DecidableEq

namespace CommandDataStore

variable {α : Type}

/-- `__init__` (lines 34-37): empty list, counter 0. -/
def init : CommandDataStore α := ⟨[], 0⟩

/-- `add_command` (lines 39-51): increment `id_counter`, append the record
`{"id": self.id_counter, "data": json_data}`, and if the list now holds
more than 500 entries replace it by `self.command_data[1:]`. -/
def add_command (s : CommandDataStore α) (json_data : α) : CommandDataStore α :=
  let appended := s.command_data ++ [⟨s.id_counter + 1, json_data⟩]
  ⟨if appended.length > 500 then appended.drop 1 else appended, s.id_counter + 1⟩

/-- `get_commands_since` (lines 53-60): keep exactly the records with
`command_record['id'] >= min_id`.  Python integers may be negative, so
`min_id` is an `Int`. -/
def get_commands_since (s : CommandDataStore α) (min_id : Int) : List (CommandRecord α) :=
  List.filter (fun command_record => decide (min_id ≤ (command_record.id : Int)))
    s.command_data

/-- The `get_commands_since` method as a state transformer: the body
(lines 53-60) only builds a new list with `filter` and never assigns to
`self.command_data` or `self.id_counter`, so the post-state is the
pre-state. -/
def get_commands_since_method (s : CommandDataStore α) (min_id : Int) :
    List (CommandRecord α) × CommandDataStore α :=
  (get_commands_since s min_id, s)

/-- The first micro-step of `add_command`: the increment
`self.id_counter += 1` on line 40, which the source performs BEFORE
acquiring `command_data_mutex` on line 41. -/
def incStep (s : CommandDataStore α) : CommandDataStore α :=
  ⟨s.command_data, s.id_counter + 1⟩

/-- The second micro-step of `add_command`: the mutex-protected region of
lines 42-51, which reads the already-incremented `self.id_counter`,
appends the record and evicts the front entry when over 500. -/
def lockedStep (s : CommandDataStore α) (json_data : α) : CommandDataStore α :=
  let appended := s.command_data ++ [⟨s.id_counter, json_data⟩]
  ⟨if appended.length > 500 then appended.drop 1 else appended, s.id_counter⟩

/-- The log state reached from startup after the given sequence of
(sequential) appends: reachable states of the store. -/
def run (ps : List α) : CommandDataStore α :=
  List.foldl add_command init ps

end CommandDataStore

/-- Outcome of a `POST /postCommand` request: 200 with empty body, or a
`send_error(HTTPStatus.BAD_REQUEST, msg)` response. -/
inductive PostResponse where
  | ok : PostResponse
  | badRequest : String → PostResponse
deriving Repr, DecidableEq

namespace RequestHandler

variable {α : Type}

/-- `max_size = 1024 * 1024 * 2` (line 107): the 2 MiB payload limit. -/
def max_size : Nat := 1024 * 1024 * 2

/-- `handle_command_request` (lines 93-94) after path validation: the
marker extracted from `/commandsSince/{n}` is incremented
(`since_id = int(match.group(1)) + 1`) and passed to
`get_commands_since`. -/
def poll (s : CommandDataStore α) (since_marker : Nat) : List (CommandRecord α) :=
  s.get_commands_since ((since_marker : Int) + 1)

/-- `handle_command_post` (lines 101-125) together with
`add_command_from` (lines 127-130): reject when `max_size < target_len`
before the body is read; otherwise read the body and run `json.loads`
(modelled by `json_loads`); a decode failure is caught and answered with
`send_error(BAD_REQUEST, 'Bad JSON data.')` without touching the store;
on success `add_command` runs and 200 is sent. -/
def handle_command_post (json_loads : String → Option α)
    (s : CommandDataStore α) (target_len : Nat) (body : String) :
    CommandDataStore α × PostResponse :=
  if max_size < target_len then
    (s, PostResponse.badRequest "JSON data exceeds maximum size")
  else
    match json_loads body with
    | none => (s, PostResponse.badRequest "Bad JSON data.")
    | some json_data => (s.add_command json_data, PostResponse.ok)

end RequestHandler

/-! ### Helper lemmas about reachable states -/

namespace CommandDataStore

variable {α : Type}

/-- The records a run of appends would create with no eviction, ids
starting at `start`. -/
def fullLogFrom (start : Nat) : List α → List (CommandRecord α)
  | [] => []
  | a :: as => ⟨start, a⟩ :: fullLogFrom (start + 1) as

theorem length_fullLogFrom (start : Nat) (ps : List α) :
    (fullLogFrom start ps).length = ps.length := by
  induction ps generalizing start with
  | nil => rfl
  | cons a as ih => simp [fullLogFrom, ih]

theorem fullLogFrom_append (start : Nat) (ps : List α) (a : α) :
    fullLogFrom start (ps ++ [a]) =
      fullLogFrom start ps ++ [⟨start + ps.length, a⟩] := by
  induction ps generalizing start with
  | nil => simp [fullLogFrom]
  | cons b bs ih =>
      have h1 : start + 1 + bs.length = start + (b :: bs).length := by
        simp only [List.length_cons]
        omega
      calc fullLogFrom start ((b :: bs) ++ [a])
          = ⟨start, b⟩ :: fullLogFrom (start + 1) (bs ++ [a]) := rfl
        _ = ⟨start, b⟩ ::
              (fullLogFrom (start + 1) bs ++ [⟨start + 1 + bs.length, a⟩]) := by
              rw [ih]
        _ = fullLogFrom start (b :: bs) ++ [⟨start + (b :: bs).length, a⟩] := by
              rw [h1]
              rfl

theorem map_id_fullLogFrom (start : Nat) (ps : List α) :
    (fullLogFrom start ps).map CommandRecord.id = List.range' start ps.length := by
  induction ps generalizing start with
  | nil => rfl
  | cons a as ih => simp [fullLogFrom, ih, List.range'_succ]

theorem range'_drop (m s n : Nat) :
    (List.range' s n).drop m = List.range' (s + m) (n - m) := by
  induction m generalizing s n with
  | zero => simp
  | succ m ih =>
      cases n with
      | zero => simp
      | succ n =>
          rw [List.range'_succ, List.drop_succ_cons, ih]
          have h1 : s + 1 + m = s + (m + 1) := by omega
          have h2 : n - m = n + 1 - (m + 1) := by omega
          rw [h1, h2]

/-- Characterisation of every reachable state: after `ps.length` appends
the counter equals the number of appends and the retained list is the
no-eviction log with its first `ps.length - 500` entries dropped. -/
theorem run_spec (ps : List α) :
    run ps = ⟨(fullLogFrom 1 ps).drop (ps.length - 500), ps.length⟩ := by
  induction ps using List.reverseRecOn with
  | nil => rfl
  | append_singleton ps a ih =>
      have hlen : (fullLogFrom 1 ps).length = ps.length := length_fullLogFrom 1 ps
      have hrun : run (ps ++ [a]) = add_command (run ps) a := by
        simp [run, List.foldl_append]
      rw [hrun, ih]
      simp only [add_command]
      have hd : (fullLogFrom 1 ps).drop (ps.length - 500) ++
            [(⟨ps.length + 1, a⟩ : CommandRecord α)] =
          (fullLogFrom 1 (ps ++ [a])).drop (ps.length - 500) := by
        rw [fullLogFrom_append]
        rw [List.drop_append_of_le_length (by omega)]
        congr 3
        omega
      have hdlen : ((fullLogFrom 1 ps).drop (ps.length - 500)).length =
          ps.length - (ps.length - 500) := by
        rw [List.length_drop, hlen]
      have happlen : ((fullLogFrom 1 ps).drop (ps.length - 500) ++
            [(⟨ps.length + 1, a⟩ : CommandRecord α)]).length =
          ps.length - (ps.length - 500) + 1 := by
        rw [List.length_append, hdlen]
        rfl
      have hlen2 : (ps ++ [a]).length = ps.length + 1 := by
        simp
      by_cases hk : ps.length < 500
      · have hnot : ¬ ((fullLogFrom 1 ps).drop (ps.length - 500) ++
            [(⟨ps.length + 1, a⟩ : CommandRecord α)]).length > 500 := by
          rw [happlen]
          omega
        have h3 : (ps ++ [a]).length - 500 = ps.length - 500 := by
          rw [hlen2]
          omega
        rw [if_neg hnot, hd, h3, hlen2]
      · have hyes : ((fullLogFrom 1 ps).drop (ps.length - 500) ++
            [(⟨ps.length + 1, a⟩ : CommandRecord α)]).length > 500 := by
          rw [happlen]
          omega
        have h4 : (ps ++ [a]).length - 500 = ps.length - 500 + 1 := by
          rw [hlen2]
          omega
        rw [if_pos hyes, hd, List.drop_drop, h4, hlen2]

theorem run_id_counter (ps : List α) : (run ps).id_counter = ps.length := by
  rw [run_spec]

theorem run_length (ps : List α) :
    (run ps).command_data.length = min ps.length 500 := by
  rw [run_spec]
  simp only [List.length_drop, length_fullLogFrom]
  omega

/-- The retained ids of a reachable state form the ascending contiguous
range ending at the counter. -/
theorem run_map_id (ps : List α) :
    (run ps).command_data.map CommandRecord.id =
      List.range' (ps.length - 500 + 1) (ps.length - (ps.length - 500)) := by
  rw [run_spec]
  simp only
  rw [List.map_drop, map_id_fullLogFrom, range'_drop]
  congr 1
  omega

theorem run_mem_id_le (ps : List α) (c : CommandRecord α)
    (hc : c ∈ (run ps).command_data) : c.id ≤ ps.length := by
  have hmem : c.id ∈ (run ps).command_data.map CommandRecord.id :=
    List.mem_map_of_mem CommandRecord.id hc
  rw [run_map_id] at hmem
  have := List.mem_range'_1.mp hmem
  omega

theorem run_pairwise_lt (ps : List α) :
    List.Pairwise (fun a b => a.id < b.id) (run ps).command_data := by
  have h := List.pairwise_lt_range' (ps.length - 500 + 1)
    (ps.length - (ps.length - 500)) 1 (by omega)
  rw [← run_map_id ps] at h
  exact (List.pairwise_map.mp h)

theorem get_commands_since_empty_of_high (ps : List α) (min_id : Int)
    (h : ((run ps).id_counter : Int) < min_id) :
    get_commands_since (run ps) min_id = [] := by
  rw [get_commands_since, List.filter_eq_nil_iff]
  intro c hc
  have hle := run_mem_id_le ps c hc
  rw [run_id_counter] at h
  simp only [decide_eq_true_eq]
  omega

end CommandDataStore

/-! ### Claim theorems -/

open CommandDataStore in
/-- Claim C1: for every reachable log state and every integer `min_id`,
`get_commands_since` returns exactly the retained commands with
`id ≥ min_id` (and excludes all others), in ascending id order, and
whenever `min_id` exceeds the highest issued id (the counter) the result
is empty. -/
theorem get_commands_since_correct {α : Type} (ps : List α) (min_id : Int) :
    (∀ c, c ∈ get_commands_since (run ps) min_id ↔
        c ∈ (run ps).command_data ∧ min_id ≤ (c.id : Int)) ∧
    List.Pairwise (fun a b => a.id < b.id) (get_commands_since (run ps) min_id) ∧
    (((run ps).id_counter : Int) < min_id →
      get_commands_since (run ps) min_id = []) := by
  refine ⟨?_, ?_, ?_⟩
  · intro c
    rw [get_commands_since, List.mem_filter]
    simp only [decide_eq_true_eq]
  · rw [get_commands_since]
    exact (run_pairwise_lt ps).filter _
  · exact get_commands_since_empty_of_high ps min_id

/-- Witness for C1 at a concrete reachable state: with two commands issued
(highest id 2), a query with `min_id = 5` returns nothing. -/
theorem get_commands_since_correct_witness :
    ((CommandDataStore.run ([8, 9] : List Nat)).id_counter : Int) < 5 ∧
    CommandDataStore.get_commands_since (CommandDataStore.run ([8, 9] : List Nat)) 5 = [] :=
  ⟨by decide, (get_commands_since_correct [8, 9] 5).2.2 (by decide)⟩

open CommandDataStore in
/-- Claim C2: for every sequence of appends the log retains at most 500
entries, and once more than 500 appends have occurred the retained ids are
exactly the 500 most recent ones, `ps.length - 499` up to `ps.length`. -/
theorem run_bounded {α : Type} (ps : List α) :
    (run ps).command_data.length ≤ 500 ∧
    (500 < ps.length →
      (run ps).command_data.map CommandRecord.id =
        List.range' (ps.length - 499) 500) := by
  constructor
  · rw [run_length]
    omega
  · intro h
    rw [run_map_id]
    congr 1
    · omega
    · omega

/-- Witness for C2: 501 appends leave exactly the 500 most recent ids,
`2` through `501`. -/
theorem run_bounded_witness :
    500 < (List.replicate 501 (0 : Nat)).length ∧
    (CommandDataStore.run (List.replicate 501 (0 : Nat))).command_data.map
        CommandRecord.id =
      List.range' ((List.replicate 501 (0 : Nat)).length - 499) 500 :=
  ⟨by simp, (run_bounded (List.replicate 501 (0 : Nat))).2 (by simp)⟩

open CommandDataStore in
/-- Claim C3: starting from the initial state, the k-th append assigns id
k: the append performed after `i` previous appends sets the counter to
`i + 1`, stores the new record with id `i + 1` at the back, and is exactly
the state transition of the run — so ids are positive, strictly
increasing, gap-free in assignment order, and never reused. -/
theorem add_command_assigns_sequential_ids {α : Type} (ps : List α) (i : Nat)
    (h : i < ps.length) :
    (add_command (run (ps.take i)) (ps.get ⟨i, h⟩)).id_counter = i + 1 ∧
    (add_command (run (ps.take i)) (ps.get ⟨i, h⟩)).command_data.getLast? =
      some ⟨i + 1, ps.get ⟨i, h⟩⟩ ∧
    run (ps.take (i + 1)) = add_command (run (ps.take i)) (ps.get ⟨i, h⟩) := by
  have htake : (ps.take i).length = i := by
    rw [List.length_take]
    omega
  have hcounter : (run (ps.take i)).id_counter = i := by
    rw [run_id_counter, htake]
  refine ⟨?_, ?_, ?_⟩
  · simp only [add_command]
    rw [hcounter]
  · simp only [add_command]
    by_cases hlong : ((run (ps.take i)).command_data ++
        [(⟨(run (ps.take i)).id_counter + 1, ps.get ⟨i, h⟩⟩ : CommandRecord α)]).length > 500
    · rw [if_pos hlong]
      have hne : (run (ps.take i)).command_data ≠ [] := by
        intro hnil
        rw [List.length_append, hnil] at hlong
        simp at hlong
      have h1 : 1 ≤ (run (ps.take i)).command_data.length :=
        List.length_pos.mpr hne
      rw [List.drop_append_of_le_length h1, List.getLast?_concat, hcounter]
    · rw [if_neg hlong, List.getLast?_concat, hcounter]
  · have hsplit : ps.take (i + 1) = ps.take i ++ [ps.get ⟨i, h⟩] := by
      rw [← List.take_concat_get ps i h, List.concat_eq_append]
      rfl
    rw [hsplit, run, List.foldl_append]
    rfl

/-- Witness for C3: in the run over `[10, 20, 30]`, the third append
(two previous appends) assigns id 3 to payload 30. -/
theorem add_command_assigns_sequential_ids_witness :
    (CommandDataStore.add_command
        (CommandDataStore.run (([10, 20, 30] : List Nat).take 2)) 30).id_counter = 3 ∧
    (CommandDataStore.add_command
        (CommandDataStore.run (([10, 20, 30] : List Nat).take 2)) 30).command_data.getLast? =
      some ⟨3, 30⟩ :=
  ⟨(add_command_assigns_sequential_ids [10, 20, 30] 2 (by decide)).1,
   (add_command_assigns_sequential_ids [10, 20, 30] 2 (by decide)).2.1⟩

open CommandDataStore in
/-- Claim C4: for every log state reached by a run and every non-negative
marker, `poll` returns the same sequence as `get_commands_since` at
`marker + 1`; no returned command carries the marker id (the last command
a client received is never re-returned); and a marker at or above the
current highest id yields the empty sequence. -/
theorem poll_marker_semantics {α : Type} (ps : List α) (m : Nat) :
    RequestHandler.poll (run ps) m = get_commands_since (run ps) ((m : Int) + 1) ∧
    (∀ c ∈ RequestHandler.poll (run ps) m, (m : Int) < (c.id : Int)) ∧
    (ps.length ≤ m → RequestHandler.poll (run ps) m = []) := by
  refine ⟨rfl, ?_, ?_⟩
  · intro c hc
    rw [RequestHandler.poll, get_commands_since, List.mem_filter] at hc
    have h2 := hc.2
    simp only [decide_eq_true_eq] at h2
    omega
  · intro hm
    apply get_commands_since_empty_of_high
    rw [run_id_counter]
    omega

/-- Witness for C4: after two appends (highest id 2), polling with marker
2 — the id of the last command — returns nothing. -/
theorem poll_marker_semantics_witness :
    ([5, 6] : List Nat).length ≤ 2 ∧
    RequestHandler.poll (CommandDataStore.run ([5, 6] : List Nat)) 2 = [] :=
  ⟨by decide, (poll_marker_semantics [5, 6] 2).2.2 (by decide)⟩

open CommandDataStore in
/-- Claim C5 is refuted by the source: `add_command` increments
`id_counter` (line 40) BEFORE acquiring `command_data_mutex` (line 41),
so the lock does not make "increment counter + insert + evict" one atomic
step.  Each `add_command` is exactly `incStep` (unlocked increment)
followed by `lockedStep` (the locked region), and the legal interleaving
"A increments, B increments, A runs its locked region, B runs its locked
region" of two appends to the fresh store produces two records that both
carry id 2 (and no record ever carries id 1): two concurrent appends can
receive the same id. -/
theorem add_command_increment_not_atomic :
    (∀ (s : CommandDataStore Nat) (a : Nat),
      add_command s a = lockedStep (incStep s) a) ∧
    (lockedStep (lockedStep (incStep (incStep (init : CommandDataStore Nat))) 10)
        20).command_data = [⟨2, 10⟩, ⟨2, 20⟩] := by
  constructor
  · intro s a
    rfl
  · rfl

/-- Claim C6: a submission whose body fails to decode, with declared size
under the limit, is answered with the `'Bad JSON data.'` client error and
leaves the store — retained commands and id counter — completely
unchanged; no id is consumed. -/
theorem post_malformed_rejected {α : Type} (json_loads : String → Option α)
    (s : CommandDataStore α) (target_len : Nat) (body : String)
    (hlen : target_len ≤ RequestHandler.max_size) (hparse : json_loads body = none) :
    RequestHandler.handle_command_post json_loads s target_len body =
      (s, PostResponse.badRequest "Bad JSON data.") := by
  simp only [RequestHandler.handle_command_post, hparse]
  rw [if_neg (by omega)]

/-- Witness for C6: a 5-byte body that fails to decode is rejected and
the initial store is returned untouched. -/
theorem post_malformed_rejected_witness :
    RequestHandler.handle_command_post (fun _ => (none : Option Nat))
        CommandDataStore.init 5 "oops!" =
      (CommandDataStore.init, PostResponse.badRequest "Bad JSON data.") :=
  post_malformed_rejected (fun _ => none) CommandDataStore.init 5 "oops!"
    (by decide) rfl

/-- Claim C7: a submission whose declared size exceeds the 2 MiB limit is
rejected with a client error, the store is unchanged, and the outcome does
not depend on the body or on the decoder at all — the rejection happens
before the body is read or parsed. -/
theorem post_oversize_rejected {α : Type} (json_loads : String → Option α)
    (s : CommandDataStore α) (target_len : Nat) (body : String)
    (hbig : RequestHandler.max_size < target_len) :
    RequestHandler.handle_command_post json_loads s target_len body =
      (s, PostResponse.badRequest "JSON data exceeds maximum size") ∧
    (∀ (g : String → Option α) (b : String),
      RequestHandler.handle_command_post g s target_len b =
        RequestHandler.handle_command_post json_loads s target_len body) := by
  constructor
  · rw [RequestHandler.handle_command_post, if_pos hbig]
  · intro g b
    rw [RequestHandler.handle_command_post, if_pos hbig,
      RequestHandler.handle_command_post, if_pos hbig]

/-- Witness for C7: a body declared as 3 MiB is rejected with the size
error and the initial store is returned untouched. -/
theorem post_oversize_rejected_witness :
    RequestHandler.max_size < 3 * 1024 * 1024 ∧
    RequestHandler.handle_command_post (fun _ => (none : Option Nat))
        CommandDataStore.init (3 * 1024 * 1024) "body" =
      (CommandDataStore.init, PostResponse.badRequest "JSON data exceeds maximum size") :=
  ⟨by decide,
   (post_oversize_rejected (fun _ => none) CommandDataStore.init
      (3 * 1024 * 1024) "body" (by decide)).1⟩

open CommandDataStore in
/-- Claim C8: appending to a full log (500 retained entries) evicts
exactly the single front element — the one with the lowest retained id —
and keeps every other record unchanged, the new record going to the back:
the post-append list is exactly `drop 1` of the old list plus the new
record. -/
theorem add_command_evicts_exactly_front {α : Type} (ps : List α) (a : α)
    (hfull : (run ps).command_data.length = 500) :
    (add_command (run ps) a).command_data =
      (run ps).command_data.drop 1 ++ [⟨(run ps).id_counter + 1, a⟩] ∧
    (∀ c ∈ (run ps).command_data, ∀ hd,
      (run ps).command_data.head? = some hd → hd.id ≤ c.id) := by
  constructor
  · simp only [add_command]
    have hlong : ((run ps).command_data ++
        [(⟨(run ps).id_counter + 1, a⟩ : CommandRecord α)]).length > 500 := by
      simp only [List.length_append, hfull, List.length_cons, List.length_nil]
      omega
    rw [if_pos hlong]
    have h1 : 1 ≤ (run ps).command_data.length := by omega
    rw [List.drop_append_of_le_length h1]
  · intro c hc hd hhd
    have hp := run_pairwise_lt ps
    cases hcd : (run ps).command_data with
    | nil =>
        rw [hcd] at hhd
        cases hhd
    | cons x xs =>
        rw [hcd] at hhd
        injection hhd with hx
        subst hx
        rw [hcd] at hc hp
        rcases List.mem_cons.mp hc with h | h
        · rw [h]
        · exact le_of_lt ((List.pairwise_cons.mp hp).1 c h)

/-- Witness for C8: with the log full after 500 appends, one more append
drops exactly the front entry and appends the new record with id 501. -/
theorem add_command_evicts_exactly_front_witness :
    (CommandDataStore.run (List.replicate 500 (0 : Nat))).command_data.length = 500 ∧
    (CommandDataStore.add_command
        (CommandDataStore.run (List.replicate 500 (0 : Nat))) 7).command_data =
      (CommandDataStore.run (List.replicate 500 (0 : Nat))).command_data.drop 1 ++
        [⟨(CommandDataStore.run (List.replicate 500 (0 : Nat))).id_counter + 1, 7⟩] := by
  have hfull :
      (CommandDataStore.run (List.replicate 500 (0 : Nat))).command_data.length = 500 := by
    rw [CommandDataStore.run_length]
    simp
  exact ⟨hfull, (add_command_evicts_exactly_front (List.replicate 500 0) 7 hfull).1⟩

open CommandDataStore in
/-- Claim C9: `get_commands_since` is side-effect free — the method call
returns the filtered list and leaves the whole store (retained commands
and id counter) unchanged, so a subsequent query by any other client
observes exactly what it would have observed before. -/
theorem get_commands_since_pure {α : Type} (s : CommandDataStore α)
    (min_id min_id2 : Int) :
    (get_commands_since_method s min_id).2 = s ∧
    (get_commands_since_method s min_id).1 = get_commands_since s min_id ∧
    get_commands_since (get_commands_since_method s min_id).2 min_id2 =
      get_commands_since s min_id2 :=
  ⟨rfl, rfl, rfl⟩

open CommandDataStore in
/-- Claim C10: in every reachable state the retained ids are exactly the
contiguous ascending range ending at the counter, from
`counter - count + 1` up to `counter` — no gaps ever appear between
retained entries, no matter how many evictions occurred. -/
theorem retained_ids_contiguous {α : Type} (ps : List α) :
    (run ps).command_data.map CommandRecord.id =
      List.range' ((run ps).id_counter - (run ps).command_data.length + 1)
        (run ps).command_data.length := by
  rw [run_map_id, run_id_counter, run_length]
  congr 1
  · omega
  · show ps.length - (ps.length - 500) = min ps.length 500
    omega
